import Mathlib

/-!
# Verification of the line-obsidian-webhook append-and-sync pipeline

A shallow embedding of the repository's handler pipeline:

* file contents and strings are `List Char` (JS strings);
* `jsTrim`, `jsSplit`, `jsJoin`, `jsIncludes` model `String.prototype.trim`,
  `split`, `Array.prototype.join` and `String.prototype.includes`;
* the entry formatter's regex
  `/(\d{1,2}:\d{2})\s+([^-]+?)(?=\s+-\s+\d{1,2}:\d{2}|$)/g` is embedded as an
  executable matcher (`findMatches`) that mirrors the backtracking semantics of
  this particular pattern;
* the merge engines (`mergeTimeline` for the diary variant of
  `processGitOperations`, `writeMessageToFile` for the topic-file variant in
  `src/handler.ts`) and the push-retry loop (`pushWithRetry`) are embedded as
  pure state-passing functions;
* the timestamp formatter (the repo delegates to the external dayjs library)
  is modelled from the spec as proleptic-Gregorian civil time at UTC+9.
-/

/-- Characters of a Lean string literal, the `List Char` view of a JS string. -/
def strL (s : String) : List Char := s.data

/-- JS whitespace test, restricted to the ASCII whitespace the vault contents use. -/
def wsB (c : Char) : Bool := c.isWhitespace

/-- `String.prototype.trim`: drop whitespace from both ends. -/
def jsTrim (l : List Char) : List Char :=
  ((l.dropWhile wsB).reverse.dropWhile wsB).reverse

/-- `String.prototype.split(sep)` for a one-character separator: the chunks
between separator occurrences, empty chunks included.  Never returns `[]`. -/
def jsSplit (sep : Char) : List Char → List (List Char)
  | [] => [[]]
  | c :: r =>
    if c == sep then [] :: jsSplit sep r
    else
      match jsSplit sep r with
      | chunk :: rest => (c :: chunk) :: rest
      | [] => []

/-- `Array.prototype.join(sep)` for a one-character separator. -/
def jsJoin (sep : Char) : List (List Char) → List Char
  | [] => []
  | [x] => x
  | x :: y :: t => x ++ sep :: jsJoin sep (y :: t)

/-- `String.prototype.includes`: `needle` occurs contiguously in `hay`. -/
def jsIncludes (hay needle : List Char) : Bool :=
  match hay with
  | [] => needle.isEmpty
  | _ :: t => needle.isPrefixOf hay || jsIncludes t needle

/-- `Array.prototype.findIndex`: index of the first element satisfying `p`
(`none` models the JS `-1`). -/
def findIndex (p : α → Bool) : List α → Option Nat
  | [] => none
  | x :: xs => if p x then some 0 else (findIndex p xs).map (· + 1)

section TimestampFormatter

/-- Gregorian leap-year test. -/
def isLeap (y : Nat) : Bool := (y % 4 == 0 && y % 100 != 0) || y % 400 == 0

/-- Number of days in year `y`. -/
def daysInYear (y : Nat) : Nat := if isLeap y then 366 else 365

/-- Month lengths of year `y`. -/
def monthLengths (y : Nat) : List Nat :=
  [31, if isLeap y then 29 else 28, 31, 30, 31, 30, 31, 31, 30, 31, 30, 31]

/-- Convert a day count since 1970-01-01 into (year, day-of-year), fuelled. -/
def yearLoop : Nat → Nat → Nat → Nat × Nat
  | 0, y, d => (y, d)
  | fuel + 1, y, d =>
    if d < daysInYear y then (y, d) else yearLoop fuel (y + 1) (d - daysInYear y)

/-- Convert a day-of-year into (month, day-of-month), both 0-based. -/
def monthLoop : List Nat → Nat → Nat → Nat × Nat
  | [], m, d => (m, d)
  | len :: rest, m, d => if d < len then (m, d) else monthLoop rest (m + 1) (d - len)

/-- Decimal digit character. -/
def digitChar (n : Nat) : Char := Nat.digitChar n

/-- Two-digit zero-padded decimal rendering. -/
def pad2 (n : Nat) : List Char := [digitChar (n / 10 % 10), digitChar (n % 10)]

/-- Four-digit zero-padded decimal rendering. -/
def pad4 (n : Nat) : List Char :=
  [digitChar (n / 1000 % 10), digitChar (n / 100 % 10), digitChar (n / 10 % 10),
    digitChar (n % 10)]

/-- Modelled from the spec: the Timestamp Formatter (§4.1).  The repository
delegates epoch-to-string formatting to the external dayjs library with the
fixed zone `Asia/Tokyo`; per the spec it derives `{year: "YYYY", date:
"YYYY-MM-DD", time: "HH:mm"}` from epoch milliseconds in that fixed zone,
which is UTC+9 with no daylight saving.  Returns (year, date, time). -/
def formatTs (epochMs : Nat) : List Char × List Char × List Char :=
  let totalSec := epochMs / 1000 + 9 * 3600
  let days := totalSec / 86400
  let secOfDay := totalSec % 86400
  let yd := yearLoop days 1970 days
  let md := monthLoop (monthLengths yd.1) 0 yd.2
  let dateStr := pad4 yd.1 ++ '-' :: pad2 (md.1 + 1) ++ '-' :: pad2 (md.2 + 1)
  (pad4 yd.1, dateStr, pad2 (secOfDay / 3600) ++ ':' :: pad2 (secOfDay % 3600 / 60))

end TimestampFormatter

section EntryFormatter

/-- The regex atom `\d{1,2}:\d{2}` matched greedily as a prefix: first the
two-digit-hour reading, then (backtracking `\d{1,2}`) the one-digit-hour
reading.  Returns the matched time token and the rest of the input. -/
def parseTime : List Char → Option (List Char × List Char)
  | c0 :: c1 :: c2 :: c3 :: c4 :: r =>
    if c0.isDigit && c1.isDigit && c2 == ':' && c3.isDigit && c4.isDigit then
      some ([c0, c1, c2, c3, c4], r)
    else if c0.isDigit && c1 == ':' && c2.isDigit && c3.isDigit then
      some ([c0, c1, c2, c3], c4 :: r)
    else none
  | [c0, c1, c2, c3] =>
    if c0.isDigit && c1 == ':' && c2.isDigit && c3.isDigit then
      some ([c0, c1, c2, c3], [])
    else none
  | _ => none

/-- The lookahead `(?=\s+-\s+\d{1,2}:\d{2}|$)`.  Because `\s` and the
literals `-` and `\d` are disjoint character classes, the greedy `\s+` with
backtracking is equivalent to taking the maximal whitespace run. -/
def lookaheadOk (l : List Char) : Bool :=
  match l with
  | [] => true
  | _ :: _ =>
    !(l.takeWhile wsB).isEmpty &&
      match l.dropWhile wsB with
      | c :: r2 =>
        c == '-' && (!(r2.takeWhile wsB).isEmpty && (parseTime (r2.dropWhile wsB)).isSome)
      | [] => false

/-- The lazy capture `([^-]+?)` followed by the lookahead: the least `m ≥ 1`
such that the first `m` characters are non-hyphens and the lookahead holds
after them, if any. -/
def contentSearch : List Char → Option Nat
  | [] => none
  | c :: r =>
    if c == '-' then none
    else if lookaheadOk r then some 1
    else (contentSearch r).map (· + 1)

/-- The greedy `\s+` between time and content with backtracking: try the
whitespace-run lengths `k, k-1, …, 1` in order, taking the first for which
the lazy content search succeeds. -/
def wsBacktrack (r0 : List Char) : Nat → Option (Nat × Nat)
  | 0 => none
  | k + 1 =>
    match contentSearch (r0.drop (k + 1)) with
    | some m => some (k + 1, m)
    | none => wsBacktrack r0 k

/-- One attempted match of the pattern at the head of `l`: returns the time
capture, the content capture, and the number of consumed characters (the
lookahead is not consumed). -/
def matchAt (l : List Char) : Option (List Char × List Char × Nat) :=
  match parseTime l with
  | none => none
  | some (t, r0) =>
    match wsBacktrack r0 (r0.takeWhile wsB).length with
    | none => none
    | some (k, m) => some (t, (r0.drop k).take m, t.length + k + m)

/-- `text.matchAll(timePattern)` scan: search left to right, restart after each
match's consumed span.  Fuelled by the input length (each step strictly
shortens the input: a match consumes at least its 4-character time token). -/
def findMatchesAux : Nat → List Char → List (List Char × List Char)
  | 0, _ => []
  | _ + 1, [] => []
  | fuel + 1, c :: rest =>
    match matchAt (c :: rest) with
    | some (t, cont, consumed) => (t, cont) :: findMatchesAux fuel ((c :: rest).drop consumed)
    | none => findMatchesAux fuel rest

/-- All matches of the time pattern in `text`, in order. -/
def findMatches (l : List Char) : List (List Char × List Char) :=
  findMatchesAux l.length l

/-- The entry formatter of `processGitOperations`: if the time pattern matches
more than once, one `"- <time> <content.trim()>\n"` line per match (each match
kept only when both captures are non-empty, as the code's truthiness test
does); otherwise a single `"- <timeStr> <text>\n"` line with the invocation
clock-time. -/
def formatEntries (text timeStr : List Char) : List Char :=
  let ms := findMatches text
  if ms.length > 1 then
    (ms.map (fun m =>
      if !m.1.isEmpty && !m.2.isEmpty then
        '-' :: ' ' :: m.1 ++ ' ' :: jsTrim m.2 ++ ['\n']
      else [])).flatten
  else '-' :: ' ' :: timeStr ++ ' ' :: text ++ ['\n']

end EntryFormatter

section MergeEngine

/-- The hidden duplicate-detection marker `<!-- MSG:id -->`. -/
def marker (mid : List Char) : List Char := strL "<!-- MSG:" ++ mid ++ strL " -->"

/-- Result of one merge invocation: whether the write was applied and the
resulting file content. -/
structure MergeResult where
  applied : Bool
  content : List Char
deriving DecidableEq

/-- The file-exists branch's padding condition: `existingContent.trim() &&
!existingContent.endsWith('\n')`. -/
def needsPad (existing : List Char) : Bool :=
  !(jsTrim existing).isEmpty && !(existing.getLast? == some '\n')

/-- The timeline merge engine of `processGitOperations` (diary variant with
message-id markers): `fileState = none` means the target file does not exist.
`line` is the already-rendered entry block (one or more `"- time content\n"`
lines).  Mirrors the source: content-duplicate check by
`existingContent.includes(line.trim())`, then the marker check, then the
trailing-newline padding, then the append; an absent file is created with the
`"## Timeline\n"` header first. -/
def mergeTimeline (fileState : Option (List Char)) (line : List Char)
    (mid : Option (List Char)) : MergeResult :=
  let finalContent :=
    match mid with
    | some i => line ++ marker i ++ ['\n']
    | none => line
  match fileState with
  | none => ⟨true, strL "## Timeline\n" ++ finalContent⟩
  | some existing =>
    if jsIncludes existing (jsTrim line) then ⟨false, existing⟩
    else if (match mid with
             | some i => jsIncludes existing (marker i)
             | none => false) then ⟨false, existing⟩
    else
      let padded := if needsPad existing then existing ++ ['\n'] else existing
      ⟨true, padded ++ finalContent⟩

/-- The topic-file merge of `src/handler.ts` (`writeMessageToFile`): the entry
line is `"- " + text`; returns `(isDuplicate, new file content)`.  When the
file exists: substring duplicate check, then find the first line whose trim
equals the date string and splice the entry after it, else prepend
`date\nline\n\n` before the previous content; an absent file is created as
`date\nline\n`. -/
def writeMessageToFile (fileState : Option (List Char)) (text dateStr : List Char) :
    Bool × List Char :=
  let line := '-' :: ' ' :: text
  match fileState with
  | some existing =>
    if jsIncludes existing line then (true, existing)
    else
      let lines := jsSplit '\n' existing
      match findIndex (fun l => jsTrim l == dateStr) lines with
      | some dateIndex =>
        (false, jsJoin '\n' (lines.take (dateIndex + 1) ++ line :: lines.drop (dateIndex + 1)))
      | none => (false, dateStr ++ '\n' :: line ++ '\n' :: '\n' :: existing)
  | none => (false, dateStr ++ '\n' :: line ++ ['\n'])

end MergeEngine

section SyncCoordinator

/-- Trace of one `pushWithRetry` run: how many pulls were issued, the waits (in
milliseconds) taken before each pull, and the final outcome. -/
structure SyncTrace (ε : Type) where
  pulls : Nat
  waits : List Nat
  result : Except ε Unit

/-- `RETRY_DELAY_MS`. -/
def retryDelayMs : Nat := 1000

/-- `MAX_PUSH_ATTEMPTS`. -/
def maxPushAttempts : Nat := 3

/-- The `while (pushAttempts < maxAttempts)` loop body of `pushWithRetry` /
`processGitOperations`: `push n` is the outcome of the `n`-th push attempt
(`none` = success, `some e` = failure with error `e`); `pull` is the outcome
of each pull attempt, which the code ignores (`catch {}`), so the trace only
counts it.  The fuel equals `maxAttempts - pushAttempts` at entry. -/
def pushLoop (push : Nat → Option ε) (pull : Nat → Bool) (maxAttempts : Nat) :
    Nat → Nat → Nat → List Nat → SyncTrace ε
  | 0, _, pulls, waits => ⟨pulls, waits, .ok ()⟩
  | fuel + 1, attempts, pulls, waits =>
    match push (attempts + 1) with
    | none => ⟨pulls, waits, .ok ()⟩
    | some e =>
      if maxAttempts ≤ attempts + 1 then ⟨pulls, waits, .error e⟩
      else
        let _ := pull (pulls + 1)
        pushLoop push pull maxAttempts fuel (attempts + 1) (pulls + 1)
          (waits ++ [retryDelayMs * (attempts + 1)])

/-- `pushWithRetry`: run the retry loop from zero attempts with
`MAX_PUSH_ATTEMPTS = 3`. -/
def pushWithRetry (push : Nat → Option ε) (pull : Nat → Bool) : SyncTrace ε :=
  pushLoop push pull maxPushAttempts maxPushAttempts 0 0 []

end SyncCoordinator

section Pipeline

/-- Result of the pure part of one `processGitOperations` invocation (diary
variant): the target path relative to the working copy, the rendered entry
block, the merge outcome, and the commit message (issued only when the merge
applied; on a detected duplicate the code returns before committing). -/
structure PipelineResult where
  path : List Char
  line : List Char
  merge : MergeResult
  commit : Option (List Char)
deriving DecidableEq

/-- The pure content of `processGitOperations` (part_002, message-id variant):
format the timestamp, render the entry block, resolve the diary path
`01_diary/<year>/<date>.md`, merge against the given file state, and commit
with message `LINE <date> <time>` when the merge applied. -/
def processGitOperations (text : List Char) (epochMs : Nat)
    (mid : Option (List Char)) (fileState : Option (List Char)) : PipelineResult :=
  let f := formatTs epochMs
  let line := formatEntries text f.2.2
  let path := strL "01_diary/" ++ f.1 ++ '/' :: f.2.1 ++ strL ".md"
  let m := mergeTimeline fileState line mid
  ⟨path, line, m, if m.applied then some (strL "LINE " ++ f.2.1 ++ ' ' :: f.2.2) else none⟩

end Pipeline

/-! ## Basic lemmas about the JS string model -/

theorem jsIncludes_iff {hay needle : List Char} :
    jsIncludes hay needle = true ↔ needle <:+: hay := by
  induction hay with
  | nil => simp [jsIncludes, List.isEmpty_iff, List.infix_nil]
  | cons c t ih =>
    simp only [jsIncludes, Bool.or_eq_true, List.isPrefixOf_iff_prefix, ih,
      List.infix_cons_iff]

theorem jsTrim_prefix_dropWhile (l : List Char) : jsTrim l <+: l.dropWhile wsB := by
  rw [← List.reverse_suffix]
  simp only [jsTrim, List.reverse_reverse]
  exact List.dropWhile_suffix _

theorem jsTrim_contained (l : List Char) : jsTrim l <:+: l :=
  (jsTrim_prefix_dropWhile l).isInfix.trans (List.dropWhile_suffix _).isInfix

/-! ## C2: push retry protocol -/

/-- **C2.** Push retry protocol: with `maxAttempts = 3`, a push failing on
attempts 1 and 2 and succeeding on attempt 3 produces exactly 2 intervening
pull attempts, one after each failed push, each preceded by a wait of
`RETRY_DELAY_MS * n` (proportional backoff: 1000 ms then 2000 ms), with any
pull outcome ignored, and the run ends in the succeeded state; a push failing
on all 3 attempts ends in the failed state propagating the last push error. -/
theorem pushWithRetry_protocol (ε : Type) (push : Nat → Option ε) (pull : Nat → Bool)
    (e1 e2 : ε) (h1 : push 1 = some e1) (h2 : push 2 = some e2) :
    (push 3 = none → pushWithRetry push pull = ⟨2, [1000, 2000], .ok ()⟩) ∧
    (∀ e3, push 3 = some e3 → pushWithRetry push pull = ⟨2, [1000, 2000], .error e3⟩) := by
  constructor
  · intro h3
    simp [pushWithRetry, maxPushAttempts, pushLoop, h1, h2, h3, retryDelayMs]
  · intro e3 h3
    simp [pushWithRetry, maxPushAttempts, pushLoop, h1, h2, h3, retryDelayMs]

/-- Witness for C2 at concrete push outcomes. -/
theorem pushWithRetry_protocol_witness :
    pushWithRetry (fun n => if n ≤ 2 then some n else none) (fun _ => true) =
      ⟨2, [1000, 2000], .ok ()⟩ ∧
    pushWithRetry (fun n => some n) (fun _ => false) = ⟨2, [1000, 2000], .error 3⟩ :=
  ⟨(pushWithRetry_protocol Nat (fun n => if n ≤ 2 then some n else none) (fun _ => true)
      1 2 rfl rfl).1 rfl,
   (pushWithRetry_protocol Nat (fun n => some n) (fun _ => false) 1 2 rfl rfl).2 3 rfl⟩

/-! ## C6: new-file creation -/

/-- **C6.** New-file creation: when the target file does not exist, the merge
returns `applied = true` and the created content starts with the fixed
`"## Timeline\n"` section header followed by every entry line of the batch in
order (with the optional message-id marker only after them). -/
theorem mergeTimeline_new_file (entryLines : List (List Char)) (mid : Option (List Char)) :
    (mergeTimeline none entryLines.flatten mid).applied = true ∧
    strL "## Timeline\n" ++ entryLines.flatten <+: (mergeTimeline none entryLines.flatten mid).content := by
  cases mid with
  | none => exact ⟨rfl, List.prefix_rfl⟩
  | some i =>
    refine ⟨rfl, ?_⟩
    have h : (mergeTimeline none entryLines.flatten (some i)).content
        = (strL "## Timeline\n" ++ entryLines.flatten) ++ (marker i ++ ['\n']) := by
      simp [mergeTimeline]
    rw [h]
    exact List.prefix_append _ _

/-! ## C10: time-pattern leniency -/

/-- **C10.** The splitter's time pattern accepts one- or two-digit hours and
does not validate hour or minute ranges: the input
`"99:99 foo - 9:05 bar"` is split into two entries whose emitted times are the
unvalidated tokens `99:99` and `9:05` verbatim, independent of the invocation
clock-time. -/
theorem formatEntries_lenient_times (t : List Char) :
    formatEntries (strL "99:99 foo - 9:05 bar") t = strL "- 99:99 foo\n- 9:05 bar\n" := rfl

/-! ## Shared merge-engine helper lemmas -/

theorem jsIncludes_of_contained {hay needle : List Char} (h : needle <:+: hay) :
    jsIncludes hay needle = true := jsIncludes_iff.2 h

theorem mergeTimeline_dup_content (existing line : List Char) (mid : Option (List Char))
    (h : jsIncludes existing (jsTrim line) = true) :
    mergeTimeline (some existing) line mid = ⟨false, existing⟩ := by
  simp [mergeTimeline, h]

theorem mergeTimeline_dup_marker (existing line i : List Char)
    (hm : jsIncludes existing (marker i) = true) :
    mergeTimeline (some existing) line (some i) = ⟨false, existing⟩ := by
  by_cases hc : jsIncludes existing (jsTrim line) = true
  · simp [mergeTimeline, hc]
  · rw [Bool.not_eq_true] at hc
    simp [mergeTimeline, hc, hm]

theorem mergeTimeline_applied (existing line : List Char) (mid : Option (List Char))
    (h1 : jsIncludes existing (jsTrim line) = false)
    (h2 : mid = none ∨ ∃ i, mid = some i ∧ jsIncludes existing (marker i) = false) :
    mergeTimeline (some existing) line mid =
      ⟨true, (if needsPad existing then existing ++ ['\n'] else existing) ++
        (match mid with | some i => line ++ marker i ++ ['\n'] | none => line)⟩ := by
  rcases h2 with rfl | ⟨i, rfl, hm⟩
  · simp [mergeTimeline, h1]
  · simp [mergeTimeline, h1, hm]

theorem writeMessage_dup (existing text dateStr : List Char)
    (h : jsIncludes existing ('-' :: ' ' :: text) = true) :
    writeMessageToFile (some existing) text dateStr = (true, existing) := by
  simp [writeMessageToFile, h]

theorem jsJoin_infix_of_mem {sep : Char} {x : List Char} :
    ∀ {L : List (List Char)}, x ∈ L → x <:+: jsJoin sep L := by
  intro L
  induction L with
  | nil => intro h; cases h
  | cons y t ih =>
    intro h
    cases t with
    | nil =>
      rcases List.mem_singleton.1 h with rfl
      exact List.infix_rfl
    | cons z t' =>
      rcases List.mem_cons.1 h with rfl | h'
      · exact (List.prefix_append x (sep :: jsJoin sep (z :: t'))).isInfix
      · exact (ih h').trans ⟨y ++ [sep], [], by simp [jsJoin]⟩

/-! ## C8: duplicate detection is substring containment -/

/-- **C8.** Duplicate detection is substring containment, not whole-line
equality: in the timeline engine, any existing file content containing the
trimmed rendered entry block as a substring (in particular strictly inside a
longer line) makes the merge report a duplicate and write nothing; likewise the
topic engine for its `"- " + text` entry line. -/
theorem duplicate_by_substring :
    (∀ (existing line : List Char) (mid : Option (List Char)),
      jsIncludes existing (jsTrim line) = true →
      mergeTimeline (some existing) line mid = ⟨false, existing⟩) ∧
    (∀ (existing text dateStr : List Char),
      jsIncludes existing ('-' :: ' ' :: text) = true →
      writeMessageToFile (some existing) text dateStr = (true, existing)) :=
  ⟨mergeTimeline_dup_content, writeMessage_dup⟩

/-- Witness for C8: the rendered line occurs strictly inside a longer existing
line, and the merge still reports a duplicate and leaves the file unchanged. -/
theorem duplicate_by_substring_witness :
    mergeTimeline (some (strL "## Timeline\n- 09:00 abc- 14:30 Hello def\n"))
      (strL "- 14:30 Hello\n") none
      = ⟨false, strL "## Timeline\n- 09:00 abc- 14:30 Hello def\n"⟩ ∧
    writeMessageToFile (some (strL "2025-06-24\nzz- Hello zz\n")) (strL "Hello")
      (strL "2025-06-25")
      = (true, strL "2025-06-24\nzz- Hello zz\n") :=
  ⟨duplicate_by_substring.1 _ _ none (by decide),
   duplicate_by_substring.2 _ _ _ (by decide)⟩

/-! ## C7: batch duplicate suppression -/

/-- **C7 counterexample.** A single entry of a multi-entry batch that is
already present in the file (even as a complete line) does not suppress the
write: the duplicate check compares the whole trimmed batch, so the merge
applies and the entry is duplicated in the file. -/
theorem batch_duplicate_not_per_entry :
    jsIncludes (strL "## Timeline\n- 13:13 a\n") (jsTrim (strL "- 13:13 a\n")) = true ∧
    formatEntries (strL "13:13 a - 13:46 b") (strL "14:30")
      = strL "- 13:13 a\n" ++ strL "- 13:46 b\n" ∧
    mergeTimeline (some (strL "## Timeline\n- 13:13 a\n"))
      (formatEntries (strL "13:13 a - 13:46 b") (strL "14:30")) none
      = ⟨true, strL "## Timeline\n- 13:13 a\n- 13:13 a\n- 13:46 b\n"⟩ :=
  ⟨by decide, by decide, by decide⟩

/-- **C7 amended.** Batch-atomic duplicate suppression, as the code implements
it: a merge of a batch against an existing file writes nothing and returns
`applied = false` exactly when the detection fires, which happens when the
file contains the batch's entire trimmed rendering as a substring, or contains
the marker bound to the message identifier when one is available; an
individual entry of the batch that is already present does not by itself
trigger suppression. -/
theorem batch_duplicate_suppression (existing batch : List Char) (mid : Option (List Char))
    (h : jsIncludes existing (jsTrim batch) = true ∨
         ∃ i, mid = some i ∧ jsIncludes existing (marker i) = true) :
    mergeTimeline (some existing) batch mid = ⟨false, existing⟩ := by
  rcases h with h | ⟨i, rfl, hm⟩
  · exact mergeTimeline_dup_content _ _ _ h
  · exact mergeTimeline_dup_marker _ _ _ hm

/-- Witness for the amended C7 at a concrete duplicated batch. -/
theorem batch_duplicate_suppression_witness :
    mergeTimeline (some (strL "## Timeline\n- 13:13 a\n- 13:46 b\n"))
      (strL "- 13:13 a\n- 13:46 b\n") none
      = ⟨false, strL "## Timeline\n- 13:13 a\n- 13:46 b\n"⟩ :=
  batch_duplicate_suppression _ _ none (Or.inl (by decide))

/-! ## C1: merge idempotence under redelivery -/

theorem jsTrim_within_append (pre line post : List Char) :
    jsTrim line <:+: pre ++ (line ++ post) :=
  (jsTrim_contained line).trans ⟨pre, post, by simp⟩

/-- **C1.** Merge idempotence under redelivery, for both engines: re-merging
the identical entry (same rendered line block, same message identifier when one
is present) against the post-merge file detects the duplicate — the second
call applies nothing (`applied = false`, resp. `isDuplicate = true` for the
topic engine) and leaves the content byte-identical to the content after the
first call, for every starting file state. -/
theorem merge_idempotent :
    (∀ (st : Option (List Char)) (line : List Char) (mid : Option (List Char)),
      (mergeTimeline (some (mergeTimeline st line mid).content) line mid).applied = false ∧
      (mergeTimeline (some (mergeTimeline st line mid).content) line mid).content
        = (mergeTimeline st line mid).content) ∧
    (∀ (st : Option (List Char)) (text dateStr : List Char),
      (writeMessageToFile (some (writeMessageToFile st text dateStr).2) text dateStr).1 = true ∧
      (writeMessageToFile (some (writeMessageToFile st text dateStr).2) text dateStr).2
        = (writeMessageToFile st text dateStr).2) := by
  constructor
  · intro st line mid
    suffices h : mergeTimeline (some (mergeTimeline st line mid).content) line mid
        = ⟨false, (mergeTimeline st line mid).content⟩ by
      rw [h]; exact ⟨rfl, rfl⟩
    cases st with
    | none =>
      apply mergeTimeline_dup_content
      apply jsIncludes_of_contained
      cases mid with
      | none =>
        have : (mergeTimeline none line none).content = strL "## Timeline\n" ++ (line ++ []) := by
          simp [mergeTimeline]
        rw [this]; exact jsTrim_within_append _ _ _
      | some i =>
        have : (mergeTimeline none line (some i)).content
            = strL "## Timeline\n" ++ (line ++ (marker i ++ ['\n'])) := by
          simp [mergeTimeline]
        rw [this]; exact jsTrim_within_append _ _ _
    | some e =>
      by_cases hdup : jsIncludes e (jsTrim line) = true
      · rw [mergeTimeline_dup_content e line mid hdup]
        exact mergeTimeline_dup_content e line mid hdup
      · rw [Bool.not_eq_true] at hdup
        cases mid with
        | none =>
          rw [mergeTimeline_applied e line none hdup (Or.inl rfl)]
          apply mergeTimeline_dup_content
          apply jsIncludes_of_contained
          show jsTrim line <:+: (if needsPad e then e ++ ['\n'] else e) ++ line
          have : (if needsPad e then e ++ ['\n'] else e) ++ line
              = (if needsPad e then e ++ ['\n'] else e) ++ (line ++ []) := by simp
          rw [this]; exact jsTrim_within_append _ _ _
        | some i =>
          by_cases hm : jsIncludes e (marker i) = true
          · rw [mergeTimeline_dup_marker e line i hm]
            exact mergeTimeline_dup_marker e line i hm
          · rw [Bool.not_eq_true] at hm
            rw [mergeTimeline_applied e line (some i) hdup (Or.inr ⟨i, rfl, hm⟩)]
            apply mergeTimeline_dup_content
            apply jsIncludes_of_contained
            show jsTrim line <:+:
              (if needsPad e then e ++ ['\n'] else e) ++ (line ++ marker i ++ ['\n'])
            have : (if needsPad e then e ++ ['\n'] else e) ++ (line ++ marker i ++ ['\n'])
                = (if needsPad e then e ++ ['\n'] else e) ++ (line ++ (marker i ++ ['\n'])) := by
              simp
            rw [this]; exact jsTrim_within_append _ _ _
  · intro st text dateStr
    suffices h : writeMessageToFile (some (writeMessageToFile st text dateStr).2) text dateStr
        = (true, (writeMessageToFile st text dateStr).2) by
      rw [h]; exact ⟨rfl, rfl⟩
    apply writeMessage_dup
    apply jsIncludes_of_contained
    cases st with
    | none =>
      have : (writeMessageToFile none text dateStr).2
          = dateStr ++ '\n' :: ('-' :: ' ' :: text ++ ['\n']) := by
        simp [writeMessageToFile]
      rw [this]
      exact ⟨dateStr ++ ['\n'], ['\n'], by simp⟩
    | some e =>
      by_cases hdup : jsIncludes e ('-' :: ' ' :: text) = true
      · rw [writeMessage_dup e text dateStr hdup]
        exact jsIncludes_iff.1 hdup
      · rw [Bool.not_eq_true] at hdup
        rcases hfind : findIndex (fun l => jsTrim l == dateStr) (jsSplit '\n' e) with _ | i
        · have : (writeMessageToFile (some e) text dateStr).2
              = dateStr ++ '\n' :: ('-' :: ' ' :: text ++ '\n' :: '\n' :: e) := by
            simp [writeMessageToFile, hdup, hfind]
          rw [this]
          exact ⟨dateStr ++ ['\n'], '\n' :: '\n' :: e, by simp⟩
        · have : (writeMessageToFile (some e) text dateStr).2
              = jsJoin '\n' ((jsSplit '\n' e).take (i + 1)
                  ++ ('-' :: ' ' :: text) :: (jsSplit '\n' e).drop (i + 1)) := by
            simp [writeMessageToFile, hdup, hfind]
          rw [this]
          exact jsJoin_infix_of_mem (by simp)

/-! ## jsSplit / jsJoin lemmas -/

theorem jsSplit_cons_sep (sep : Char) (r : List Char) :
    jsSplit sep (sep :: r) = [] :: jsSplit sep r := by
  rw [jsSplit, if_pos (beq_self_eq_true sep)]

theorem jsSplit_ne_nil (sep : Char) : ∀ l : List Char, jsSplit sep l ≠ []
  | [] => by simp [jsSplit]
  | c :: r => by
    have ih := jsSplit_ne_nil sep r
    rw [jsSplit]
    by_cases hc : c == sep
    · rw [if_pos hc]; simp
    · rw [if_neg hc]
      rcases h : jsSplit sep r with _ | ⟨chunk, rest⟩
      · exact absurd h ih
      · simp

theorem jsSplit_cons_ne {sep c : Char} (hc : ¬c = sep) {r : List Char}
    {chunk : List Char} {rest : List (List Char)} (h : jsSplit sep r = chunk :: rest) :
    jsSplit sep (c :: r) = (c :: chunk) :: rest := by
  rw [jsSplit, if_neg (by simpa using hc), h]

theorem jsSplit_sep_not_mem (sep : Char) : ∀ l : List Char, ∀ x ∈ jsSplit sep l, sep ∉ x := by
  intro l
  induction l with
  | nil => intro x hx; simp [jsSplit] at hx; simp [hx]
  | cons c r ih =>
    intro x hx
    rcases h : jsSplit sep r with _ | ⟨chunk, rest⟩
    · exact absurd h (jsSplit_ne_nil sep r)
    · by_cases hc : c = sep
      · subst hc
        rw [jsSplit_cons_sep, h] at hx
        rcases List.mem_cons.1 hx with rfl | hx'
        · simp
        · exact ih x (h ▸ hx')
      · rw [jsSplit_cons_ne hc h] at hx
        have hchunk : chunk ∈ jsSplit sep r := by rw [h]; exact List.mem_cons_self _ _
        rcases List.mem_cons.1 hx with rfl | hx'
        · intro hmem
          rcases List.mem_cons.1 hmem with rfl | hmem'
          · exact hc rfl
          · exact ih chunk hchunk hmem'
        · exact ih x (by rw [h]; exact List.mem_cons_of_mem _ hx')

theorem jsSplit_append_cons (sep : Char) (b : List Char) :
    ∀ a : List Char, jsSplit sep (a ++ sep :: b) = jsSplit sep a ++ jsSplit sep b := by
  intro a
  induction a with
  | nil => rw [List.nil_append, jsSplit_cons_sep]; rfl
  | cons c a' ih =>
    by_cases hc : c = sep
    · subst hc
      rw [List.cons_append, jsSplit_cons_sep, jsSplit_cons_sep, ih, List.cons_append]
    · rcases h : jsSplit sep a' with _ | ⟨chunk, rest⟩
      · exact absurd h (jsSplit_ne_nil sep a')
      · have h2 : jsSplit sep (a' ++ sep :: b) = chunk :: (rest ++ jsSplit sep b) := by
          rw [ih, h, List.cons_append]
        rw [List.cons_append, jsSplit_cons_ne hc h2, jsSplit_cons_ne hc h, List.cons_append]

theorem jsSplit_of_not_mem (sep : Char) : ∀ x : List Char, sep ∉ x → jsSplit sep x = [x] := by
  intro x
  induction x with
  | nil => intro _; rfl
  | cons c r ih =>
    intro h
    have hc : ¬c = sep := fun hce => h (hce ▸ List.mem_cons_self _ _)
    have hr : jsSplit sep r = [r] := ih (fun hm => h (List.mem_cons_of_mem _ hm))
    rw [jsSplit_cons_ne hc hr]

theorem jsJoin_append (sep : Char) (C : List (List Char)) (hC : C ≠ []) :
    ∀ A : List (List Char), A ≠ [] →
      jsJoin sep (A ++ C) = jsJoin sep A ++ sep :: jsJoin sep C := by
  intro A
  induction A with
  | nil => intro h; exact absurd rfl h
  | cons a A' ih =>
    intro _
    cases A' with
    | nil =>
      rcases C with _ | ⟨c, C'⟩
      · exact absurd rfl hC
      · simp [jsJoin]
    | cons a' A'' =>
      have step : jsJoin sep ((a :: a' :: A'') ++ C) = a ++ sep :: jsJoin sep ((a' :: A'') ++ C) := by
        rcases h : (a' :: A'') ++ C with _ | ⟨z, t⟩
        · simp at h
        · rw [List.cons_append, h, jsJoin, ← h]
      rw [step, ih (by simp), jsJoin]
      simp

theorem jsSplit_jsJoin (sep : Char) :
    ∀ L : List (List Char), L ≠ [] → (∀ y ∈ L, sep ∉ y) →
      jsSplit sep (jsJoin sep L) = L := by
  intro L
  induction L with
  | nil => intro h; exact absurd rfl h
  | cons x L' ih =>
    intro _ hfree
    cases L' with
    | nil => exact jsSplit_of_not_mem sep x (hfree x (List.mem_cons_self _ _))
    | cons y t =>
      have step : jsJoin sep (x :: y :: t) = x ++ sep :: jsJoin sep (y :: t) := rfl
      rw [step, jsSplit_append_cons, jsSplit_of_not_mem sep x (hfree x (List.mem_cons_self _ _)),
        ih (by simp) (fun z hz => hfree z (List.mem_cons_of_mem _ hz))]
      rfl

theorem jsSplit_join_insert (sep : Char) (A B : List (List Char)) (x : List Char)
    (hA : ∀ y ∈ A, sep ∉ y) (hB : ∀ y ∈ B, sep ∉ y) (hAne : A ≠ []) :
    jsSplit sep (jsJoin sep (A ++ x :: B)) = A ++ jsSplit sep x ++ B := by
  cases B with
  | nil =>
    rw [show A ++ [x] = A ++ [x] from rfl, jsJoin_append sep [x] (by simp) A hAne,
      jsSplit_append_cons, jsSplit_jsJoin sep A hAne hA]
    simp [jsJoin]
  | cons b B' =>
    rw [jsJoin_append sep (x :: b :: B') (by simp) A hAne, jsSplit_append_cons,
      jsSplit_jsJoin sep A hAne hA]
    have step : jsJoin sep (x :: b :: B') = x ++ sep :: jsJoin sep (b :: B') := rfl
    rw [step, jsSplit_append_cons, jsSplit_jsJoin sep (b :: B') (by simp) hB]
    simp

theorem findIndex_get? {α : Type} {p : α → Bool} :
    ∀ {l : List α} {i : Nat}, findIndex p l = some i →
      ∃ x, l.get? i = some x ∧ p x = true := by
  intro l
  induction l with
  | nil => intro i h; simp [findIndex] at h
  | cons a t ih =>
    intro i h
    by_cases hp : p a = true
    · rw [findIndex, if_pos hp] at h
      cases h
      exact ⟨a, rfl, hp⟩
    · rw [findIndex, if_neg hp] at h
      rcases Option.map_eq_some'.1 h with ⟨j, hj, rfl⟩
      rcases ih hj with ⟨x, hx, hpx⟩
      exact ⟨x, hx, hpx⟩

/-! ## writeMessageToFile branch reduction lemmas -/

theorem writeMessage_found (existing text dateStr : List Char) (i : Nat)
    (hdup : jsIncludes existing ('-' :: ' ' :: text) = false)
    (hfind : findIndex (fun l => jsTrim l == dateStr) (jsSplit '\n' existing) = some i) :
    writeMessageToFile (some existing) text dateStr =
      (false, jsJoin '\n' ((jsSplit '\n' existing).take (i + 1)
        ++ ('-' :: ' ' :: text) :: (jsSplit '\n' existing).drop (i + 1))) := by
  simp [writeMessageToFile, hdup, hfind]

theorem writeMessage_notfound (existing text dateStr : List Char)
    (hdup : jsIncludes existing ('-' :: ' ' :: text) = false)
    (hfind : findIndex (fun l => jsTrim l == dateStr) (jsSplit '\n' existing) = none) :
    writeMessageToFile (some existing) text dateStr =
      (false, dateStr ++ '\n' :: ('-' :: ' ' :: text) ++ '\n' :: '\n' :: existing) := by
  simp [writeMessageToFile, hdup, hfind]

theorem take_ne_nil_of_ne_nil {α : Type} {l : List α} (h : l ≠ []) (n : Nat) :
    l.take (n + 1) ≠ [] := by
  cases l with
  | nil => exact absurd rfl h
  | cons a t => simp [List.take]

/-! ## C4: topic-file insertion policy -/

/-- **C4.** Topic-file insertion policy: for an existing topic file and a
non-duplicate entry, (a) if some line's trimmed form equals the current date
string (the first such line, at index `i`), the merge splices the new entry
line immediately after that line — the resulting line list is the old lines
with the entry's lines inserted right after index `i`; (b) if no line matches,
the new content is `date\nentry\n\n` followed by the previous full content;
(c) concretely, a file whose first block is `2025-06-24` merged with an entry
dated `2025-06-25` gets a `2025-06-25` block prepended before the untouched
`2025-06-24` block. -/
theorem topic_insertion_policy :
    (∀ (existing text dateStr : List Char) (i : Nat),
      jsIncludes existing ('-' :: ' ' :: text) = false →
      findIndex (fun l => jsTrim l == dateStr) (jsSplit '\n' existing) = some i →
      (∃ x, (jsSplit '\n' existing).get? i = some x ∧ jsTrim x = dateStr) ∧
      jsSplit '\n' (writeMessageToFile (some existing) text dateStr).2
        = (jsSplit '\n' existing).take (i + 1) ++ jsSplit '\n' ('-' :: ' ' :: text)
          ++ (jsSplit '\n' existing).drop (i + 1)) ∧
    (∀ (existing text dateStr : List Char),
      jsIncludes existing ('-' :: ' ' :: text) = false →
      findIndex (fun l => jsTrim l == dateStr) (jsSplit '\n' existing) = none →
      (writeMessageToFile (some existing) text dateStr).2
        = dateStr ++ '\n' :: ('-' :: ' ' :: text) ++ '\n' :: '\n' :: existing) ∧
    writeMessageToFile (some (strL "2025-06-24\n- 10:00 x\n")) (strL "y") (strL "2025-06-25")
      = (false, strL "2025-06-25\n- y\n\n2025-06-24\n- 10:00 x\n") := by
  refine ⟨?_, ?_, by decide⟩
  · intro existing text dateStr i hdup hfind
    constructor
    · rcases findIndex_get? hfind with ⟨x, hx, hpx⟩
      exact ⟨x, hx, beq_iff_eq.1 hpx⟩
    · rw [writeMessage_found existing text dateStr i hdup hfind]
      exact jsSplit_join_insert '\n' _ _ _
        (fun y hy => jsSplit_sep_not_mem '\n' existing y (List.mem_of_mem_take hy))
        (fun y hy => jsSplit_sep_not_mem '\n' existing y (List.mem_of_mem_drop hy))
        (take_ne_nil_of_ne_nil (jsSplit_ne_nil '\n' existing) i)
  · intro existing text dateStr hdup hfind
    rw [writeMessage_notfound existing text dateStr hdup hfind]

/-- Witness for C4: a concrete date-found splice and a concrete
date-not-found prepend. -/
theorem topic_insertion_policy_witness :
    jsSplit '\n' (writeMessageToFile (some (strL "2025-06-25\n- 10:00 a\n")) (strL "b")
        (strL "2025-06-25")).2
      = (jsSplit '\n' (strL "2025-06-25\n- 10:00 a\n")).take 1
        ++ jsSplit '\n' (strL "- b")
        ++ (jsSplit '\n' (strL "2025-06-25\n- 10:00 a\n")).drop 1 ∧
    (writeMessageToFile (some (strL "2025-06-24\n- 10:00 a\n")) (strL "b")
        (strL "2025-06-25")).2
      = strL "2025-06-25" ++ '\n' :: strL "- b" ++ '\n' :: '\n' :: strL "2025-06-24\n- 10:00 a\n" :=
  ⟨((topic_insertion_policy.1 (strL "2025-06-25\n- 10:00 a\n") (strL "b") (strL "2025-06-25") 0
      (by decide) (by decide)).2),
   topic_insertion_policy.2.1 (strL "2025-06-24\n- 10:00 a\n") (strL "b") (strL "2025-06-25")
      (by decide) (by decide)⟩

/-! ## C9: merge preserves all pre-existing content -/

/-- **C9.** A merge that applies a write preserves the previous content: in the
timeline engine the previous content is a prefix of the result (up to the one
conditionally appended trailing newline); in the topic engine the previous
line list is a sublist of the resulting line list (new material is only
inserted, never replaces or deletes existing lines). -/
theorem merge_preserves_existing :
    (∀ (existing line : List Char) (mid : Option (List Char)),
      (mergeTimeline (some existing) line mid).applied = true →
      existing <+: (mergeTimeline (some existing) line mid).content ∨
      existing ++ ['\n'] <+: (mergeTimeline (some existing) line mid).content) ∧
    (∀ (existing text dateStr : List Char),
      (writeMessageToFile (some existing) text dateStr).1 = false →
      (jsSplit '\n' existing).Sublist
        (jsSplit '\n' (writeMessageToFile (some existing) text dateStr).2)) := by
  constructor
  · intro existing line mid h
    by_cases hdup : jsIncludes existing (jsTrim line) = true
    · rw [mergeTimeline_dup_content _ _ _ hdup] at h
      exact absurd h (by simp)
    · rw [Bool.not_eq_true] at hdup
      have happ : mid = none ∨ ∃ i, mid = some i ∧ jsIncludes existing (marker i) = false := by
        cases mid with
        | none => exact Or.inl rfl
        | some i =>
          by_cases hm : jsIncludes existing (marker i) = true
          · rw [mergeTimeline_dup_marker _ _ _ hm] at h
            exact absurd h (by simp)
          · exact Or.inr ⟨i, rfl, by rwa [Bool.not_eq_true] at hm⟩
      rw [mergeTimeline_applied existing line mid hdup happ]
      cases hpad : needsPad existing with
      | false =>
        left
        simp only [hpad, Bool.false_eq_true, if_false]
        exact List.prefix_append _ _
      | true =>
        right
        simp only [hpad, if_true]
        exact List.prefix_append _ _
  · intro existing text dateStr h
    by_cases hdup : jsIncludes existing ('-' :: ' ' :: text) = true
    · rw [writeMessage_dup _ _ _ hdup] at h
      exact absurd h (by simp)
    · rw [Bool.not_eq_true] at hdup
      rcases hfind : findIndex (fun l => jsTrim l == dateStr) (jsSplit '\n' existing) with _ | i
      · rw [writeMessage_notfound existing text dateStr hdup hfind]
        have e1 : dateStr ++ '\n' :: ('-' :: ' ' :: text) ++ '\n' :: '\n' :: existing
            = dateStr ++ '\n' :: (('-' :: ' ' :: text) ++ '\n' :: ('\n' :: existing)) := by
          simp
        rw [e1, jsSplit_append_cons, jsSplit_append_cons, jsSplit_cons_sep]
        have h1 : (jsSplit '\n' existing).Sublist ([] :: jsSplit '\n' existing) :=
          List.sublist_cons_self _ _
        have h2 := h1.trans (List.sublist_append_right (jsSplit '\n' ('-' :: ' ' :: text))
          ([] :: jsSplit '\n' existing))
        exact h2.trans (List.sublist_append_right (jsSplit '\n' dateStr) _)
      · rw [writeMessage_found existing text dateStr i hdup hfind]
        rw [jsSplit_join_insert '\n' _ _ _
          (fun y hy => jsSplit_sep_not_mem '\n' existing y (List.mem_of_mem_take hy))
          (fun y hy => jsSplit_sep_not_mem '\n' existing y (List.mem_of_mem_drop hy))
          (take_ne_nil_of_ne_nil (jsSplit_ne_nil '\n' existing) i)]
        have step := List.Sublist.append_left
          (List.sublist_append_right (jsSplit '\n' ('-' :: ' ' :: text))
            ((jsSplit '\n' existing).drop (i + 1)))
          ((jsSplit '\n' existing).take (i + 1))
        rw [← List.append_assoc] at step
        simpa [List.take_append_drop] using step

/-- Witness for C9: one concrete applied timeline merge and one concrete
applied topic merge. -/
theorem merge_preserves_existing_witness :
    (strL "## Timeline\n- 10:00 old" <+: (mergeTimeline (some (strL "## Timeline\n- 10:00 old"))
        (strL "- 14:30 x\n") none).content ∨
     strL "## Timeline\n- 10:00 old" ++ ['\n'] <+: (mergeTimeline
        (some (strL "## Timeline\n- 10:00 old")) (strL "- 14:30 x\n") none).content) ∧
    (jsSplit '\n' (strL "2025-06-25\n- a\n")).Sublist
      (jsSplit '\n' (writeMessageToFile (some (strL "2025-06-25\n- a\n")) (strL "b")
        (strL "2025-06-25")).2) :=
  ⟨merge_preserves_existing.1 (strL "## Timeline\n- 10:00 old") (strL "- 14:30 x\n") none
      (by decide),
   merge_preserves_existing.2 (strL "2025-06-25\n- a\n") (strL "b") (strL "2025-06-25")
      (by decide)⟩

/-! ## Canonical multi-segment inputs for the entry formatter

A "well-formed `<time> content` segment" (spec §4.2): a `\d{1,2}:\d{2}` time
token, one space, then non-empty content that contains no hyphen and neither
starts nor ends with whitespace; segments are separated by `" - "`. -/

/-- One `<time> content` segment of a multi-entry message. -/
structure Seg where
  time : List Char
  content : List Char

/-- The shape `\d{1,2}:\d{2}`: two-digit or one-digit hour, colon, two-digit
minute, with no range validation. -/
def isTimeShape : List Char → Bool
  | [a, b, c, d, e] => a.isDigit && b.isDigit && c == ':' && d.isDigit && e.isDigit
  | [a, b, c, d] => a.isDigit && b == ':' && c.isDigit && d.isDigit
  | _ => false

/-- Well-formed segment content: non-empty, hyphen-free, and not starting or
ending with whitespace. -/
def goodContent (c : List Char) : Bool :=
  !c.isEmpty && c.all (fun x => x != '-') &&
    (match c.head? with | some h => !wsB h | none => false) &&
    (match c.getLast? with | some x => !wsB x | none => false)

/-- A well-formed segment. -/
def wfSeg (s : Seg) : Prop := isTimeShape s.time = true ∧ goodContent s.content = true

instance (s : Seg) : Decidable (wfSeg s) := by unfold wfSeg; infer_instance

/-- Render one segment as `<time> <content>`. -/
def renderSeg (s : Seg) : List Char := s.time ++ ' ' :: s.content

/-- Render segments separated by `" - "`. -/
def renderSegs : List Seg → List Char
  | [] => []
  | [s] => renderSeg s
  | s :: s' :: rest => renderSeg s ++ ' ' :: '-' :: ' ' :: renderSegs (s' :: rest)

theorem digit_not_ws {c : Char} (h : c.isDigit = true) : wsB c = false := by
  rcases hws : wsB c with _ | _
  · rfl
  · exfalso
    simp only [wsB, Char.isWhitespace, Bool.or_eq_true, decide_eq_true_eq] at hws
    rcases hws with ((rfl | rfl) | rfl) | rfl <;> exact absurd h (by decide)

theorem goodContent_unpack {c : List Char} (h : goodContent c = true) :
    c ≠ [] ∧ c.all (fun x => x != '-') = true ∧
      (∀ x, c.head? = some x → wsB x = false) ∧
      (∀ x, c.getLast? = some x → wsB x = false) := by
  simp only [goodContent, Bool.and_eq_true, Bool.not_eq_true'] at h
  obtain ⟨⟨⟨h1, h2⟩, h3⟩, h4⟩ := h
  refine ⟨by simpa [List.isEmpty_iff] using h1, h2, ?_, ?_⟩
  · intro x hx
    rw [hx] at h3
    simpa using h3
  · intro x hx
    rw [hx] at h4
    simpa using h4

theorem timeShape_cases {t : List Char} (h : isTimeShape t = true) :
    (∃ a b d e, t = [a, b, ':', d, e] ∧ a.isDigit = true ∧ b.isDigit = true ∧
      d.isDigit = true ∧ e.isDigit = true) ∨
    (∃ a c d, t = [a, ':', c, d] ∧ a.isDigit = true ∧ c.isDigit = true ∧ d.isDigit = true) := by
  rcases t with _ | ⟨a, _ | ⟨b, _ | ⟨c, _ | ⟨d, _ | ⟨e, _ | ⟨f, tt⟩⟩⟩⟩⟩⟩
  · exact absurd h (by simp [isTimeShape])
  · exact absurd h (by simp [isTimeShape])
  · exact absurd h (by simp [isTimeShape])
  · exact absurd h (by simp [isTimeShape])
  · simp only [isTimeShape, Bool.and_eq_true, beq_iff_eq] at h
    obtain ⟨⟨⟨ha, hb⟩, hc⟩, hd⟩ := h
    exact Or.inr ⟨a, c, d, by rw [hb], ha, hc, hd⟩
  · simp only [isTimeShape, Bool.and_eq_true, beq_iff_eq] at h
    obtain ⟨⟨⟨⟨ha, hb⟩, hc⟩, hd⟩, he⟩ := h
    exact Or.inl ⟨a, b, d, e, by rw [hc], ha, hb, hd, he⟩
  · exact absurd h (by simp [isTimeShape])

theorem timeShape_ne_nil {t : List Char} (h : isTimeShape t = true) : t ≠ [] := by
  rcases timeShape_cases h with ⟨a, b, d, e, rfl, _⟩ | ⟨a, c, d, rfl, _⟩ <;> simp

theorem timeShape_head_digit {t : List Char} (h : isTimeShape t = true) :
    ∃ a r, t = a :: r ∧ a.isDigit = true := by
  rcases timeShape_cases h with ⟨a, b, d, e, rfl, ha, _⟩ | ⟨a, c, d, rfl, ha, _⟩
  · exact ⟨a, _, rfl, ha⟩
  · exact ⟨a, _, rfl, ha⟩

theorem parseTime_timeShape {t : List Char} (h : isTimeShape t = true) (x : Char) (r : List Char) :
    parseTime (t ++ x :: r) = some (t, x :: r) := by
  rcases timeShape_cases h with ⟨a, b, d, e, rfl, ha, hb, hd, he⟩ | ⟨a, c, d, rfl, ha, hc, hd⟩
  · show parseTime (a :: b :: ':' :: d :: e :: (x :: r)) = _
    rw [parseTime]
    rw [if_pos (by simp [ha, hb, hd, he])]
  · show parseTime (a :: ':' :: c :: d :: x :: r) = _
    rw [parseTime]
    rw [if_neg (by simp), if_pos (by simp [ha, hc, hd])]

theorem parseTime_none_of_head {c : Char} (hc : c.isDigit = false) (r : List Char) :
    parseTime (c :: r) = none := by
  rcases r with _ | ⟨c1, _ | ⟨c2, _ | ⟨c3, _ | ⟨c4, r⟩⟩⟩⟩ <;> simp [parseTime, hc]

theorem matchAt_none_of_head {c : Char} (hc : c.isDigit = false) (r : List Char) :
    matchAt (c :: r) = none := by
  rw [matchAt, parseTime_none_of_head hc]

/-! ## Lookahead and content-search lemmas on canonical inputs -/

theorem dropWhile_append_ne {p : Char → Bool} {xs : List Char} (ys : List Char)
    (h : xs.dropWhile p ≠ []) : (xs ++ ys).dropWhile p = xs.dropWhile p ++ ys := by
  rw [List.dropWhile_append, if_neg (by simpa [List.isEmpty_iff] using h)]

theorem dropWhile_ne_nil_of_last {p : Char → Bool} :
    ∀ {xs : List Char} {x : Char}, xs.getLast? = some x → p x = false → xs.dropWhile p ≠ [] := by
  intro xs
  induction xs with
  | nil => intro x hx; simp at hx
  | cons a t ih =>
    intro x hx hpx
    rcases hpa : p a with _ | _
    · rw [List.dropWhile_cons_of_neg (by simp [hpa])]
      simp
    · rw [List.dropWhile_cons_of_pos hpa]
      cases t with
      | nil =>
        simp at hx
        subst hx
        rw [hpa] at hpx
        cases hpx
      | cons b t' =>
        rw [List.getLast?_cons_cons] at hx
        exact ih hx hpx

theorem head_dropWhile_false {p : Char → Bool} :
    ∀ {xs : List Char} {c : Char} {cs : List Char}, xs.dropWhile p = c :: cs → p c = false := by
  intro xs
  induction xs with
  | nil => intro c cs h; simp at h
  | cons a t ih =>
    intro c cs h
    rcases hpa : p a with _ | _
    · rw [List.dropWhile_cons_of_neg (by simp [hpa])] at h
      cases h
      exact hpa
    · rw [List.dropWhile_cons_of_pos hpa] at h
      exact ih h

theorem mem_of_dropWhile_cons {p : Char → Bool} {xs : List Char} {c : Char} {cs : List Char}
    (h : xs.dropWhile p = c :: cs) : c ∈ xs := by
  have : c ∈ xs.dropWhile p := by rw [h]; exact List.mem_cons_self _ _
  exact (List.dropWhile_suffix p).subset this

theorem lookahead_fails_inside {cs : List Char} (sep' : List Char) (hne : cs ≠ [])
    (hnh : cs.all (fun x => x != '-') = true)
    (hlast : ∀ x, cs.getLast? = some x → wsB x = false) :
    lookaheadOk (cs ++ sep') = false := by
  rcases cs with _ | ⟨c, cs'⟩
  · exact absurd rfl hne
  · rcases hwc : wsB c with _ | _
    · rw [List.cons_append, lookaheadOk,
        List.takeWhile_cons_of_neg (by simp [hwc])]
      simp
    · obtain ⟨x, hx⟩ : ∃ x, (c :: cs').getLast? = some x := by
        rcases h : (c :: cs').getLast? with _ | x
        · simp at h
        · exact ⟨x, rfl⟩
      have hd : (c :: cs').dropWhile wsB ≠ [] :=
        dropWhile_ne_nil_of_last hx (hlast x hx)
      obtain ⟨c', cs'', hsplit⟩ : ∃ c' cs'', (c :: cs').dropWhile wsB = c' :: cs'' := by
        rcases h : (c :: cs').dropWhile wsB with _ | ⟨c', cs''⟩
        · exact absurd h hd
        · exact ⟨c', cs'', rfl⟩
      have hc'w : wsB c' = false := head_dropWhile_false hsplit
      have hc'mem : c' ∈ c :: cs' := mem_of_dropWhile_cons hsplit
      have hc'ne : ¬c' = '-' := by
        have := List.all_eq_true.1 hnh c' hc'mem
        simpa using this
      have hdapp : ((c :: cs') ++ sep').dropWhile wsB = c' :: (cs'' ++ sep') := by
        rw [dropWhile_append_ne sep' hd, hsplit, List.cons_append]
      rw [List.cons_append, lookaheadOk, ← List.cons_append, hdapp]
      simp [show (c' == '-') = false by simp [hc'ne]]

theorem getLast?_cons_of_ne_nil {a : Char} {t : List Char} (h : t ≠ []) :
    (a :: t).getLast? = t.getLast? := by
  cases t with
  | nil => exact absurd rfl h
  | cons b t' => exact List.getLast?_cons_cons

theorem contentSearch_canonical :
    ∀ (content : List Char), content ≠ [] → content.all (fun x => x != '-') = true →
      (∀ x, content.getLast? = some x → wsB x = false) →
      ∀ sep' : List Char, lookaheadOk sep' = true →
        contentSearch (content ++ sep') = some content.length := by
  intro content
  induction content with
  | nil => intro h; exact absurd rfl h
  | cons c cs ih =>
    intro _ hall hlast sep' hsep
    have hcne : ¬(c == '-') = true := by
      have := List.all_eq_true.1 hall c (List.mem_cons_self _ _)
      simpa using this
    cases cs with
    | nil =>
      rw [List.cons_append, List.nil_append, contentSearch, if_neg hcne, if_pos hsep]
      rfl
    | cons c2 cs' =>
      have hall2 : (c2 :: cs').all (fun x => x != '-') = true := by
        simp only [List.all_cons, Bool.and_eq_true] at hall
        exact (by simpa [List.all_cons] using hall.2)
      have hlast2 : ∀ x, (c2 :: cs').getLast? = some x → wsB x = false := fun x hx =>
        hlast x (by rw [getLast?_cons_of_ne_nil (by simp)]; exact hx)
      have hfail : lookaheadOk ((c2 :: cs') ++ sep') = false :=
        lookahead_fails_inside sep' (by simp) hall2 hlast2
      rw [List.cons_append] at hfail
      rw [List.cons_append, contentSearch, if_neg hcne, if_neg (by simp [hfail]),
        List.cons_append] at *
      have ih' := ih (by simp) hall2 hlast2 sep' hsep
      rw [List.cons_append] at ih'
      rw [ih']
      rfl

/-! ## matchAt and findMatches on canonical inputs -/

theorem lookaheadOk_nil : lookaheadOk [] = true := rfl

theorem matchAt_canonical {time content : List Char} (ht : isTimeShape time = true)
    (hc : goodContent content = true) {sep' : List Char} (hsep : lookaheadOk sep' = true) :
    matchAt (time ++ ' ' :: (content ++ sep'))
      = some (time, content, time.length + 1 + content.length) := by
  obtain ⟨hne, hall, hhead, hlast⟩ := goodContent_unpack hc
  obtain ⟨ch, ct, rfl⟩ : ∃ ch ct, content = ch :: ct := by
    rcases content with _ | ⟨ch, ct⟩
    · exact absurd rfl hne
    · exact ⟨ch, ct, rfl⟩
  have htw : ((' ' :: ((ch :: ct) ++ sep')).takeWhile wsB) = [' '] := by
    rw [List.takeWhile_cons_of_pos (by decide), List.cons_append,
      List.takeWhile_cons_of_neg (by simp [hhead ch rfl])]
  have hcs : contentSearch ((' ' :: ((ch :: ct) ++ sep')).drop 1) = some (ch :: ct).length := by
    rw [show (' ' :: ((ch :: ct) ++ sep')).drop 1 = (ch :: ct) ++ sep' from rfl]
    exact contentSearch_canonical (ch :: ct) (by simp) hall hlast sep' hsep
  have htake : ((' ' :: ((ch :: ct) ++ sep')).drop 1).take (ch :: ct).length = ch :: ct := by
    rw [show (' ' :: ((ch :: ct) ++ sep')).drop 1 = (ch :: ct) ++ sep' from rfl]
    exact List.take_left _ _
  rw [matchAt, parseTime_timeShape ht ' ' ((ch :: ct) ++ sep')]
  show (match wsBacktrack (' ' :: ((ch :: ct) ++ sep'))
      ((' ' :: ((ch :: ct) ++ sep')).takeWhile wsB).length with
    | none => none
    | some (k, m) =>
      some (time, ((' ' :: ((ch :: ct) ++ sep')).drop k).take m, time.length + k + m)) = _
  rw [htw]
  show (match wsBacktrack (' ' :: ((ch :: ct) ++ sep')) (0 + 1) with
    | none => none
    | some (k, m) =>
      some (time, ((' ' :: ((ch :: ct) ++ sep')).drop k).take m, time.length + k + m)) = _
  rw [wsBacktrack, hcs]
  show some (time, ((' ' :: ((ch :: ct) ++ sep')).drop (0 + 1)).take (ch :: ct).length,
    time.length + (0 + 1) + (ch :: ct).length) = _
  rw [show (0 + 1 : Nat) = 1 from rfl, htake]

theorem renderSegs_cons_eq (s : Seg) (X : List Char) :
    renderSeg s ++ X = s.time ++ ' ' :: (s.content ++ X) := by
  simp [renderSeg]

theorem renderSegs_head_digit (s : Seg) (rest : List Seg) (hs : wfSeg s) :
    ∃ d r', renderSegs (s :: rest) = d :: r' ∧ d.isDigit = true := by
  obtain ⟨a, r, ht, ha⟩ := timeShape_head_digit hs.1
  obtain ⟨X, hX⟩ : ∃ X, renderSegs (s :: rest) = s.time ++ ' ' :: X := by
    cases rest with
    | nil => exact ⟨s.content, rfl⟩
    | cons s2 rest' =>
      exact ⟨s.content ++ ' ' :: '-' :: ' ' :: renderSegs (s2 :: rest'),
        renderSegs_cons_eq s _⟩
  exact ⟨a, r ++ ' ' :: X, by rw [hX, ht, List.cons_append], ha⟩

theorem parseTime_renderSegs (s : Seg) (rest : List Seg) (hs : wfSeg s) :
    (parseTime (renderSegs (s :: rest))).isSome = true := by
  obtain ⟨X, hX⟩ : ∃ X, renderSegs (s :: rest) = s.time ++ ' ' :: X := by
    cases rest with
    | nil => exact ⟨s.content, rfl⟩
    | cons s2 rest' =>
      exact ⟨s.content ++ ' ' :: '-' :: ' ' :: renderSegs (s2 :: rest'),
        renderSegs_cons_eq s _⟩
  rw [hX, parseTime_timeShape hs.1]
  rfl

theorem lookahead_sep (s2 : Seg) (rest : List Seg) (h2 : wfSeg s2) :
    lookaheadOk (' ' :: '-' :: ' ' :: renderSegs (s2 :: rest)) = true := by
  obtain ⟨d, r', hrr, hd⟩ := renderSegs_head_digit s2 rest h2
  have hdw : wsB d = false := digit_not_ws hd
  have t1 : ((' ' :: '-' :: ' ' :: renderSegs (s2 :: rest)).takeWhile wsB) = [' '] := by
    rw [List.takeWhile_cons_of_pos (by decide), List.takeWhile_cons_of_neg (by decide)]
  have t2 : ((' ' :: '-' :: ' ' :: renderSegs (s2 :: rest)).dropWhile wsB)
      = '-' :: ' ' :: renderSegs (s2 :: rest) := by
    rw [List.dropWhile_cons_of_pos (by decide), List.dropWhile_cons_of_neg (by decide)]
  have t3 : ((' ' :: renderSegs (s2 :: rest)).takeWhile wsB) = [' '] := by
    rw [List.takeWhile_cons_of_pos (by decide), hrr,
      List.takeWhile_cons_of_neg (by simp [hdw])]
  have t4 : ((' ' :: renderSegs (s2 :: rest)).dropWhile wsB) = renderSegs (s2 :: rest) := by
    rw [List.dropWhile_cons_of_pos (by decide), hrr,
      List.dropWhile_cons_of_neg (by simp [hdw])]
  rw [lookaheadOk, t1, t2]
  show (!([' '] : List Char).isEmpty &&
    (('-' : Char) == '-' &&
      (!((' ' :: renderSegs (s2 :: rest)).takeWhile wsB).isEmpty &&
        (parseTime ((' ' :: renderSegs (s2 :: rest)).dropWhile wsB)).isSome))) = true
  rw [t3, t4, parseTime_renderSegs s2 rest h2]
  rfl

theorem findMatchesAux_nil : ∀ fuel, findMatchesAux fuel [] = []
  | 0 => rfl
  | _ + 1 => rfl

theorem findMatchesAux_skip3 (f : Nat) (rr : List Char) :
    findMatchesAux (f + 3) (' ' :: '-' :: ' ' :: rr) = findMatchesAux f rr := by
  show findMatchesAux (f + 2 + 1) (' ' :: '-' :: ' ' :: rr) = findMatchesAux f rr
  rw [findMatchesAux, matchAt_none_of_head (by decide)]
  show findMatchesAux (f + 1 + 1) ('-' :: ' ' :: rr) = findMatchesAux f rr
  rw [findMatchesAux, matchAt_none_of_head (by decide)]
  show findMatchesAux (f + 0 + 1) (' ' :: rr) = findMatchesAux f rr
  rw [findMatchesAux, matchAt_none_of_head (by decide)]

theorem findMatchesAux_render :
    ∀ (segs : List Seg), segs ≠ [] → (∀ s ∈ segs, wfSeg s) →
      ∀ fuel, (renderSegs segs).length ≤ fuel →
        findMatchesAux fuel (renderSegs segs)
          = segs.map (fun s => (s.time, s.content)) := by
  intro segs
  induction segs with
  | nil => intro h; exact absurd rfl h
  | cons s rest ih =>
    intro _ hwf fuel hfuel
    have hs : wfSeg s := hwf s (List.mem_cons_self _ _)
    obtain ⟨d, r', hdr, hd⟩ := renderSegs_head_digit s rest hs
    have hlen1 : 1 ≤ (renderSegs (s :: rest)).length := by rw [hdr]; simp
    obtain ⟨f, rfl⟩ : ∃ f, fuel = f + 1 := ⟨fuel - 1, by omega⟩
    cases rest with
    | nil =>
      have hrender : renderSegs [s] = s.time ++ ' ' :: (s.content ++ []) := by
        show renderSeg s = _
        rw [List.append_nil, renderSeg]
      have hmatch' : matchAt (d :: r')
          = some (s.time, s.content, s.time.length + 1 + s.content.length) := by
        rw [← hdr, hrender]
        exact matchAt_canonical hs.1 hs.2 lookaheadOk_nil
      have hdrop' : (d :: r').drop (s.time.length + 1 + s.content.length) = [] := by
        rw [← hdr, hrender]
        apply List.drop_eq_nil_of_le
        simp only [List.length_append, List.length_cons, List.length_nil]
        omega
      rw [hdr, findMatchesAux, hmatch']
      show (s.time, s.content)
          :: findMatchesAux f ((d :: r').drop (s.time.length + 1 + s.content.length))
        = List.map (fun s => (s.time, s.content)) [s]
      rw [hdrop', findMatchesAux_nil]
      rfl
    | cons s2 rest' =>
      have hsep : lookaheadOk (' ' :: '-' :: ' ' :: renderSegs (s2 :: rest')) = true :=
        lookahead_sep s2 rest' (hwf s2 (List.mem_cons_of_mem _ (List.mem_cons_self _ _)))
      have hrender : renderSegs (s :: s2 :: rest')
          = s.time ++ ' ' :: (s.content ++ ' ' :: '-' :: ' ' :: renderSegs (s2 :: rest')) := by
        show renderSeg s ++ ' ' :: '-' :: ' ' :: renderSegs (s2 :: rest') = _
        exact renderSegs_cons_eq s _
      have hmatch' : matchAt (d :: r')
          = some (s.time, s.content, s.time.length + 1 + s.content.length) := by
        rw [← hdr, hrender]
        exact matchAt_canonical hs.1 hs.2 hsep
      have hlentot : (renderSegs (s :: s2 :: rest')).length
          = s.time.length + 1 + s.content.length + 3 + (renderSegs (s2 :: rest')).length := by
        rw [hrender]
        simp only [List.length_append, List.length_cons]
        omega
      have hdrop' : (d :: r').drop (s.time.length + 1 + s.content.length)
          = ' ' :: '-' :: ' ' :: renderSegs (s2 :: rest') := by
        rw [← hdr, hrender]
        have e : s.time ++ ' ' :: (s.content ++ ' ' :: '-' :: ' ' :: renderSegs (s2 :: rest'))
            = (s.time ++ ' ' :: s.content) ++ ' ' :: '-' :: ' ' :: renderSegs (s2 :: rest') := by
          simp
        have hL : s.time.length + 1 + s.content.length = (s.time ++ ' ' :: s.content).length := by
          simp only [List.length_append, List.length_cons]
          omega
        rw [e, hL, List.drop_left]
      rw [hdr, findMatchesAux, hmatch']
      show (s.time, s.content)
          :: findMatchesAux f ((d :: r').drop (s.time.length + 1 + s.content.length))
        = List.map (fun s => (s.time, s.content)) (s :: s2 :: rest')
      rw [hdrop']
      have hf3 : f = (f - 3) + 3 := by omega
      rw [hf3, findMatchesAux_skip3,
        ih (by simp) (fun x hx => hwf x (List.mem_cons_of_mem _ hx)) (f - 3) (by omega)]
      rfl

theorem findMatches_render (segs : List Seg) (hne : segs ≠ [])
    (hwf : ∀ s ∈ segs, wfSeg s) :
    findMatches (renderSegs segs) = segs.map (fun s => (s.time, s.content)) :=
  findMatchesAux_render segs hne hwf _ le_rfl

theorem jsTrim_id {c : List Char} (hh : ∀ x, c.head? = some x → wsB x = false)
    (hl : ∀ x, c.getLast? = some x → wsB x = false) : jsTrim c = c := by
  have h1 : c.dropWhile wsB = c := by
    cases c with
    | nil => rfl
    | cons a t => exact List.dropWhile_cons_of_neg (by simp [hh a rfl])
  have h2 : c.reverse.dropWhile wsB = c.reverse := by
    rcases hc : c.reverse with _ | ⟨a, t⟩
    · rfl
    · have ha : c.getLast? = some a := by rw [← List.head?_reverse, hc]; rfl
      rw [List.dropWhile_cons_of_neg (by simp [hl a ha])]
  rw [jsTrim, h1, h2, List.reverse_reverse]

/-! ## C3: multi-segment split -/

/-- **C3.** Multi-segment split: for every input consisting of at least two
well-formed `<time> content` segments separated by `" - "` (time of shape
`\d{1,2}:\d{2}`; content non-empty, hyphen-free, not starting or ending with
whitespace), the entry formatter emits exactly one line per segment, of the
form `"- <segment time> <segment content>\n"`, using each segment's own
embedded time and independent of the invocation clock-time; in particular
`"13:13 notebook - 13:46 test"` yields exactly the two lines
`"- 13:13 notebook\n"` and `"- 13:46 test\n"`. -/
theorem multi_segment_split :
    (∀ (segs : List Seg) (t : List Char), (∀ s ∈ segs, wfSeg s) → 2 ≤ segs.length →
      formatEntries (renderSegs segs) t
        = (segs.map (fun s => '-' :: ' ' :: s.time ++ ' ' :: s.content ++ ['\n'])).flatten) ∧
    (∀ t, formatEntries (strL "13:13 notebook - 13:46 test") t
        = strL "- 13:13 notebook\n- 13:46 test\n") := by
  constructor
  · intro segs t hwf hlen
    have hne : segs ≠ [] := by
      intro h
      rw [h] at hlen
      simp at hlen
    have hfm := findMatches_render segs hne hwf
    simp only [formatEntries, hfm]
    rw [if_pos (by rw [List.length_map]; omega)]
    rw [List.map_map]
    congr 1
    apply List.map_congr_left
    intro s hs
    obtain ⟨ht, hc⟩ := hwf s hs
    obtain ⟨hcne, hall, hhead, hlast⟩ := goodContent_unpack hc
    have htne : s.time ≠ [] := timeShape_ne_nil ht
    simp only [Function.comp_apply]
    rw [if_pos (by simp [List.isEmpty_iff, htne, hcne]), jsTrim_id hhead hlast]
  · intro t
    rfl

/-- Witness for C3 at the spec's own two-segment example. -/
theorem multi_segment_split_witness :
    formatEntries (renderSegs [⟨strL "13:13", strL "notebook"⟩, ⟨strL "13:46", strL "test"⟩])
        (strL "14:30")
      = (([⟨strL "13:13", strL "notebook"⟩, ⟨strL "13:46", strL "test"⟩] : List Seg).map
          (fun s => '-' :: ' ' :: s.time ++ ' ' :: s.content ++ ['\n'])).flatten :=
  multi_segment_split.1 [⟨strL "13:13", strL "notebook"⟩, ⟨strL "13:46", strL "test"⟩]
    (strL "14:30") (by decide) (by decide)

/-! ## C5: single-segment rendering and end-to-end example -/

/-- **C5.** Single-segment rendering: whenever the time pattern does not match
more than once in the trimmed message text, the produced line is exactly
`"- <invocation time> <trimmed text>\n"`; and end-to-end, the message
`"Hello World"` at epoch 1750829400000 ms (2025-06-25 14:30 JST) with no
pre-existing file yields the target path `01_diary/2025/2025-06-25.md`, the
created content `"## Timeline\n"` followed by `"- 14:30 Hello World\n"`, and
the commit message `"LINE 2025-06-25 14:30"`. -/
theorem single_segment_end_to_end :
    (∀ (raw t : List Char), (findMatches (jsTrim raw)).length ≤ 1 →
      formatEntries (jsTrim raw) t = '-' :: ' ' :: t ++ ' ' :: jsTrim raw ++ ['\n']) ∧
    processGitOperations (strL "Hello World") 1750829400000 none none
      = ⟨strL "01_diary/2025/2025-06-25.md", strL "- 14:30 Hello World\n",
         ⟨true, strL "## Timeline\n- 14:30 Hello World\n"⟩,
         some (strL "LINE 2025-06-25 14:30")⟩ := by
  constructor
  · intro raw t h
    simp only [formatEntries]
    rw [if_neg (by omega)]
  · rfl

/-- Witness for C5 at the example message. -/
theorem single_segment_end_to_end_witness :
    formatEntries (jsTrim (strL "  Hello World  ")) (strL "14:30")
      = '-' :: ' ' :: strL "14:30" ++ ' ' :: jsTrim (strL "  Hello World  ") ++ ['\n'] :=
  single_segment_end_to_end.1 (strL "  Hello World  ") (strL "14:30") (by decide)
